import Mathlib

/-!
Shallow embedding of the SCF query engine
(`src/security_controls_mcp/data_loader.py`, class `SCFData`), together
with theorems checking the specification's claims about it.

Modelling conventions:
* Python `None`-able string fields become `Option String`.
* A Python `dict` of framework mappings becomes an association list
  `List (String × Option (List String))`; `dict.get` is `fmGet`.
* Python strings are manipulated as `List Char`; `str.lower()` is a
  per-character `Char.toLower`.
* Code that can raise (reading `description` without a null guard in
  snippet construction) returns `Option`, with `none` as the error state.
-/

/-! ### Helper lemmas about the search loop -/

/-! ### Helper lemmas about mapping and framework listing -/

/-- One SCF control record, as stored in `self.controls`. -/
structure Control where
  id : String
  name : Option String
  description : Option String
  weight : Int
  framework_mappings : List (String × Option (List String))
deriving Repr, DecidableEq
/-- One search result, as built by `SCFData.search_controls`
(the constant `relevance: 1.0` field is omitted: it carries no data). -/
structure SearchHit where
  control_id : String
  name : Option String
  snippet : List Char
  mapped_frameworks : List String
deriving Repr, DecidableEq
/-- One registry entry built by `SCFData._build_framework_metadata`. -/
structure Framework where
  key : String
  name : String
  controls_mapped : Nat
deriving Repr, DecidableEq
/-- One row built by `SCFData.get_framework_controls`; the outer `Option`
on `description` records whether the key is present in the dict at all. -/
structure FrameworkControlRow where
  scf_id : String
  scf_name : Option String
  framework_control_ids : List String
  weight : Int
  description : Option (Option String)
deriving Repr, DecidableEq
/-- One row built by `SCFData.map_frameworks`. -/
structure Mapping where
  scf_id : String
  scf_name : Option String
  source_controls : List String
  target_controls : List String
  weight : Int
deriving Repr, DecidableEq
/-- `str.lower()` on a character list. -/
def pyLower (l : List Char) : List Char := l.map Char.toLower
/-- `ctrl["name"].lower() if ctrl["name"] else ""`: a null (or empty,
which Python also treats as falsy) field lowers to the empty string. -/
def lowerOptField (o : Option String) : List Char :=
  match o with
  | none => []
  | some s => pyLower s.data
/-- `ctrl["framework_mappings"].get(key)`: `none` both for a missing key
and for a key stored with value `None`. -/
def fmGet (c : Control) (key : String) : Option (List String) :=
  (List.lookup key c.framework_mappings).join
/-- Python truthiness of a `list | None` value: truthy iff a non-empty list. -/
def truthy (o : Option (List String)) : Bool :=
  match o with
  | some (_ :: _) => true
  | _ => false
/-- Python's substring test `pat in s` on character lists. -/
def isSubOf (pat : List Char) : List Char → Bool
  | [] => pat.isEmpty
  | c :: t => pat.isPrefixOf (c :: t) || isSubOf pat t
/-- `haystack.find(pat)` on character lists, as `Option Nat`
(Python returns `-1` for absence). -/
def findSub (pat : List Char) : List Char → Option Nat
  | [] => if pat.isPrefixOf ([] : List Char) then some 0 else none
  | c :: t =>
    if pat.isPrefixOf (c :: t) then some 0
    else (findSub pat t).map (· + 1)
/-- The literal `"..."` appended or prepended to clipped snippets. -/
def dots : List Char := ['.', '.', '.']
/-- Snippet construction, lines 785–796 of `data_loader.py`, for a
non-null description `desc` and the original query `q`. -/
def mkSnippet (q : List Char) (desc : List Char) : List Char :=
  match findSub (pyLower q) (pyLower desc) with
  | some idx =>
    let start := idx - 50
    let stop := min desc.length (idx + q.length + 100)
    let body := (desc.drop start).take (stop - start)
    let body := if 0 < start then dots ++ body else body
    if stop < desc.length then body ++ dots else body
  | none => if 150 < desc.length then desc.take 150 ++ dots else desc
/-- The text-match test of `search_controls`:
`query_lower in name_lower or query_lower in desc_lower`. -/
def matchesText (qLower : List Char) (c : Control) : Bool :=
  isSubOf qLower (lowerOptField c.name) || isSubOf qLower (lowerOptField c.description)
/-- The optional framework filter of `search_controls`: `if frameworks:`
guards the check, so `None` and the empty list disable it. -/
def fwFilterPass (fws : Option (List String)) (c : Control) : Bool :=
  match fws with
  | none => true
  | some [] => true
  | some l => l.any fun fw => truthy (fmGet c fw)
/-- `[fw for fw, mappings in ctrl["framework_mappings"].items() if mappings]`. -/
def mappedFrameworks (c : Control) : List String :=
  (c.framework_mappings.filter fun p => truthy p.2).map Prod.fst
/-- The hit built for a matching control, assuming its description is
readable (`getD ""` is only exercised under that assumption). -/
def hitOf (q : String) (c : Control) : SearchHit :=
  { control_id := c.id
    name := c.name
    snippet := mkSnippet q.data (c.description.getD "").data
    mapped_frameworks := mappedFrameworks c }
/-- Hit construction including the failure mode: snippet creation reads
`ctrl["description"].lower()` with no null guard, so a null description
raises (modelled as `none`). -/
def mkHit (q : String) (c : Control) : Option SearchHit :=
  match c.description with
  | none => none
  | some _ => some (hitOf q c)
/-- The scan loop of `search_controls`: append each passing hit, and
break as soon as `len(results) >= limit` (checked after appending). -/
def searchAux (q : String) (fws : Option (List String)) (limit : Int) :
    List Control → List SearchHit → Option (List SearchHit)
  | [], acc => some acc
  | c :: rest, acc =>
    if matchesText (pyLower q.data) c then
      if fwFilterPass fws c then
        match mkHit q c with
        | none => none
        | some h =>
          if limit ≤ ((acc ++ [h]).length : Int) then some (acc ++ [h])
          else searchAux q fws limit rest (acc ++ [h])
      else searchAux q fws limit rest acc
    else searchAux q fws limit rest acc
/-- `SCFData.search_controls(query, frameworks, limit)`. -/
def searchControls (ctrls : List Control) (q : String)
    (fws : Option (List String)) (limit : Int) : Option (List SearchHit) :=
  searchAux q fws limit ctrls []
/-- `SCFData.get_control`: `controls_by_id` is a dict comprehension over
`controls`, so a later duplicate id overwrites an earlier one; `dict.get`
therefore returns the last control carrying the id, or `None`. -/
def getControl (ctrls : List Control) (control_id : String) : Option Control :=
  ctrls.reverse.find? fun c => c.id == control_id
/-- `SCFData._build_framework_metadata`, parameterised by the static
`framework_names` table: count controls with a truthy mapping and keep
only keys with positive count. -/
def buildFrameworks (names : List (String × String)) (ctrls : List Control) :
    List Framework :=
  names.filterMap fun kn =>
    let count := (ctrls.filter fun c => truthy (fmGet c kn.1)).length
    if 0 < count then some ⟨kn.1, kn.2, count⟩ else none
/-- `SCFData.get_framework_controls(framework, include_descriptions)`. -/
def getFrameworkControls (ctrls : List Control) (framework : String)
    (include_descriptions : Bool) : List FrameworkControlRow :=
  ctrls.filterMap fun c =>
    match fmGet c framework with
    | some (x :: xs) =>
      some { scf_id := c.id
             scf_name := c.name
             framework_control_ids := x :: xs
             weight := c.weight
             description := if include_descriptions then some c.description else none }
    | _ => none
/-- The skip test for the optional `source_control` filter of
`map_frameworks`: `if source_control and source_control not in source_mappings`. -/
def srcFilterSkips (filt : Option String) (source_mappings : List String) : Bool :=
  match filt with
  | none => false
  | some s => (s != "") && !(source_mappings.contains s)
/-- `SCFData.map_frameworks(source_framework, target_framework, source_control)`. -/
def mapFrameworks (ctrls : List Control) (src tgt : String)
    (filt : Option String) : List Mapping :=
  ctrls.filterMap fun c =>
    match fmGet c src with
    | some (x :: xs) =>
      if srcFilterSkips filt (x :: xs) then none
      else
        some { scf_id := c.id
               scf_name := c.name
               source_controls := x :: xs
               target_controls := (fmGet c tgt).getD []
               weight := c.weight }
    | _ => none
/-- A control passes the scan (text match plus framework filter). -/
def passCtrl (q : String) (fws : Option (List String)) (c : Control) : Bool :=
  matchesText (pyLower q.data) c && fwFilterPass fws c
/-- The number of hits actually collected before the post-append break
fires: `limit` for positive limits, `1` for zero or negative limits. -/
def effLimit (limit : Int) : Nat := max 1 limit.toNat
/-- The row produced by `map_frameworks` for a kept control. -/
def rowOf (src tgt : String) (c : Control) : Mapping :=
  { scf_id := c.id
    scf_name := c.name
    source_controls := (fmGet c src).getD []
    target_controls := (fmGet c tgt).getD []
    weight := c.weight }
/-- The keep-predicate of `map_frameworks`: a truthy source mapping, and
(for a truthy `source_control` filter) membership of the filter id. -/
def keepMapping (src : String) (filt : Option String) (c : Control) : Bool :=
  truthy (fmGet c src) &&
    (match filt with
     | none => true
     | some s => (s == "") || ((fmGet c src).getD []).contains s)

/-- The snippet as the specification words it: the excerpt of the
description around the first case-insensitive occurrence of the query,
from `max 0 (mStart - 50)` to `min desc.length (mEnd + 100)`, with an
ellipsis mark on each side where text is omitted; if the query does not
occur in the description, its first 150 characters, marked iff longer. -/
def specSnippet (q : String) (desc : String) : List Char :=
  match findSub (pyLower q.data) (pyLower desc.data) with
  | some mStart =>
    let mEnd := mStart + q.data.length
    let lo := mStart - 50
    let hi := min desc.data.length (mEnd + 100)
    (if 0 < lo then dots else []) ++ (desc.data.drop lo).take (hi - lo) ++
      (if hi < desc.data.length then dots else [])
  | none =>
    if 150 < desc.data.length then desc.data.take 150 ++ dots else desc.data

/-- Fixture: a control shaped like the dataset record "GOV-01". -/
def cGov : Control :=
  { id := "GOV-01"
    name := some "Cybersecurity Governance Program"
    description := some "Cybersecurity Governance Program"
    weight := 10
    framework_mappings := [("iso_27001_2022", some ["5.1"]), ("dora", none)] }

/-- Fixture: a second control with two source mappings. -/
def cPol : Control :=
  { id := "GOV-02"
    name := some "Policies"
    description := some "Publish security policies"
    weight := 8
    framework_mappings := [("iso_27001_2022", some ["5.2", "5.1"])] }

/-- Fixture: a control whose name matches but whose description is null. -/
def cNull : Control :=
  { id := "X-1"
    name := some "alpha"
    description := none
    weight := 5
    framework_mappings := [] }

/-- The keep-condition as claim C5 words it: a non-null/non-empty
source mapping which, when a `source_control_id` is supplied, contains
that id. -/
def specKeep (src : String) (filt : Option String) (c : Control) : Bool :=
  truthy (fmGet c src) &&
    (match filt with
     | none => true
     | some s => ((fmGet c src).getD []).contains s)

/-! ### Helper lemmas -/

lemma effLimit_pos (limit : Int) : 0 < effLimit limit :=
  lt_of_lt_of_le Nat.zero_lt_one (le_max_left 1 _)

lemma break_iff (limit : Int) (n : Nat) (hn : 1 ≤ n) :
    limit ≤ (n : Int) ↔ effLimit limit ≤ n := by
  rcases le_or_lt limit 0 with h | h
  · have ht : limit.toNat = 0 := by omega
    constructor
    · intro _; simpa [effLimit, ht] using hn
    · intro _
      exact h.trans (by exact_mod_cast Nat.zero_le n)
  · have h1 : limit = (limit.toNat : Int) := (Int.toNat_of_nonneg h.le).symm
    have ht : 1 ≤ limit.toNat := by omega
    have h2 : effLimit limit = limit.toNat := by
      simp [effLimit, Nat.max_eq_right ht]
    rw [h2, h1]
    exact_mod_cast Iff.rfl

lemma searchAux_eq (q : String) (fws : Option (List String)) (limit : Int) :
    ∀ (ctrls : List Control) (acc : List SearchHit),
      (∀ c ∈ ctrls, passCtrl q fws c = true → c.description ≠ none) →
      acc.length < effLimit limit →
      searchAux q fws limit ctrls acc =
        some (acc ++
          ((ctrls.filter (passCtrl q fws)).take (effLimit limit - acc.length)).map (hitOf q)) := by
  intro ctrls
  induction ctrls with
  | nil => intro acc _ _; simp [searchAux]
  | cons c rest ih =>
    intro acc hdesc hacc
    by_cases hp : passCtrl q fws c = true
    · have hm : matchesText (pyLower q.data) c = true :=
        (Bool.and_eq_true _ _ |>.mp hp).1
      have hf : fwFilterPass fws c = true :=
        (Bool.and_eq_true _ _ |>.mp hp).2
      have hd : c.description ≠ none := hdesc c (by simp) hp
      obtain ⟨d, hdEq⟩ := Option.ne_none_iff_exists'.mp hd
      have hmk : mkHit q c = some (hitOf q c) := by simp [mkHit, hdEq]
      have hlen : (acc ++ [hitOf q c]).length = acc.length + 1 := by simp
      rw [searchAux, if_pos hm, if_pos hf, hmk]
      simp only [hlen]
      rcases eq_or_lt_of_le (Nat.succ_le_of_lt hacc) with heq | hlt
    
      · have hbr : limit ≤ ((acc.length + 1 : Nat) : Int) := by
          rw [break_iff limit (acc.length + 1) (by omega)]
          omega
        rw [if_pos (by exact_mod_cast hbr)]
        have htake : effLimit limit - acc.length = 1 := by omega
        rw [htake]
        simp [List.filter_cons, hp]
      · have hbr : ¬ limit ≤ ((acc.length + 1 : Nat) : Int) := by
          rw [break_iff limit (acc.length + 1) (by omega)]
          omega
        rw [if_neg (by exact_mod_cast hbr)]
        rw [ih (acc ++ [hitOf q c])
          (fun c' hc' => hdesc c' (List.mem_cons_of_mem _ hc'))
          (by simpa [hlen] using hlt)]
        have hstep : effLimit limit - acc.length = (effLimit limit - (acc.length + 1)) + 1 := by
          omega
        rw [hstep]
        simp [List.filter_cons, hp, List.take_succ_cons, hlen]
    · have hrec : searchAux q fws limit (c :: rest) acc = searchAux q fws limit rest acc := by
        rw [searchAux]
        by_cases hm : matchesText (pyLower q.data) c
        · have hf : fwFilterPass fws c = false := by
            cases hfc : fwFilterPass fws c
            · rfl
            · exact absurd (by simp [passCtrl, hm, hfc]) hp
          rw [if_pos hm, if_neg (by simp [hf])]
        · rw [if_neg hm]
      have hp' : passCtrl q fws c = false := by simpa using hp
      rw [hrec, ih acc (fun c' hc' => hdesc c' (List.mem_cons_of_mem _ hc')) hacc]
      simp [List.filter_cons, hp']

lemma searchControls_eq (ctrls : List Control) (q : String)
    (fws : Option (List String)) (limit : Int)
    (hdesc : ∀ c ∈ ctrls, passCtrl q fws c = true → c.description ≠ none) :
    searchControls ctrls q fws limit =
      some (((ctrls.filter (passCtrl q fws)).take (effLimit limit)).map (hitOf q)) := by
  have := searchAux_eq q fws limit ctrls [] hdesc (by simpa using effLimit_pos limit)
  simpa [searchControls] using this

lemma length_filter_mono {α : Type} (l : List α) (p r : α → Bool)
    (h : ∀ a, p a = true → r a = true) :
    (l.filter p).length ≤ (l.filter r).length := by
  induction l with
  | nil => simp
  | cons a t ih =>
    by_cases hpa : p a = true
    · simp [List.filter_cons, hpa, h a hpa, Nat.succ_le_succ ih]
    · have hpa' : p a = false := by simpa using hpa
      by_cases hra : r a = true
      · simp only [List.filter_cons, hpa', hra]
        simp only [Bool.false_eq_true, if_false, if_true, List.length_cons]
        exact ih.trans (Nat.le_succ _)
      · have hra' : r a = false := by simpa using hra
        simp [List.filter_cons, hpa', hra', ih]

lemma mem_take_filter {α : Type} (p : α → Bool) :
    ∀ (l : List α) (k i : Nat) (hi : i < l.length),
      p (l.get ⟨i, hi⟩) = true → (l.take i).countP p < k →
      l.get ⟨i, hi⟩ ∈ (l.filter p).take k := by
  intro l
  induction l with
  | nil => intro k i hi; simp at hi
  | cons a t ih =>
    intro k i hi hp hcount
    cases i with
    | zero =>
      simp only [List.get] at hp ⊢
      have hk : 0 < k := lt_of_le_of_lt (Nat.zero_le _) hcount
      obtain ⟨k', rfl⟩ := Nat.exists_eq_succ_of_ne_zero (Nat.pos_iff_ne_zero.mp hk)
      simp [List.filter_cons, hp]
    | succ j =>
      have hj : j < t.length := by simpa using hi
      have hget : (a :: t).get ⟨j + 1, hi⟩ = t.get ⟨j, hj⟩ := rfl
      rw [hget] at hp ⊢
      by_cases hpa : p a = true
      · have hcount' : (t.take j).countP p < k - 1 := by
          have : ((a :: t).take (j + 1)).countP p = (t.take j).countP p + 1 := by
            simp [List.take_succ_cons, List.countP_cons, hpa]
          omega
        have hk : 0 < k := by omega
        obtain ⟨k', rfl⟩ := Nat.exists_eq_succ_of_ne_zero (Nat.pos_iff_ne_zero.mp hk)
        have := ih k' j hj hp (by omega)
        simp only [List.filter_cons, hpa, if_true, List.take_succ_cons]
        exact List.mem_cons_of_mem _ this
      · have hpa' : p a = false := by simpa using hpa
        have hcount' : (t.take j).countP p < k := by
          have : ((a :: t).take (j + 1)).countP p = (t.take j).countP p := by
            simp [List.take_succ_cons, List.countP_cons, hpa']
          omega
        have := ih k j hj hp hcount'
        simpa [List.filter_cons, hpa'] using this

lemma keep_iff (src : String) (filt : Option String) (c : Control) :
    keepMapping src filt c =
      (truthy (fmGet c src) && !(srcFilterSkips filt ((fmGet c src).getD []))) := by
  cases filt with
  | none => simp [keepMapping, srcFilterSkips]
  | some s => simp [keepMapping, srcFilterSkips, Bool.not_and, Bool.not_not, bne]

lemma mapFrameworks_eq (ctrls : List Control) (src tgt : String)
    (filt : Option String) :
    mapFrameworks ctrls src tgt filt =
      (ctrls.filter (keepMapping src filt)).map (rowOf src tgt) := by
  induction ctrls with
  | nil => rfl
  | cons c rest ih =>
    simp only [mapFrameworks] at ih ⊢
    rw [List.filterMap_cons, List.filter_cons]
    cases hsm : fmGet c src with
    | none =>
      have hk : keepMapping src filt c = false := by simp [keepMapping, hsm, truthy]
      simpa [hk] using ih
    | some l =>
      cases l with
      | nil =>
        have hk : keepMapping src filt c = false := by simp [keepMapping, hsm, truthy]
        simpa [hk] using ih
      | cons x xs =>
        have hk : keepMapping src filt c = !(srcFilterSkips filt (x :: xs)) := by
          rw [keep_iff]
          simp [hsm, truthy]
        cases hskip : srcFilterSkips filt (x :: xs) with
        | true =>
          rw [hskip] at hk
          simpa [hsm, hskip, hk] using ih
        | false =>
          rw [hskip] at hk
          have hrow : rowOf src tgt c =
              { scf_id := c.id, scf_name := c.name, source_controls := x :: xs,
                target_controls := (fmGet c tgt).getD [], weight := c.weight } := by
            simp [rowOf, hsm]
          simp only [hsm, hskip, hk, Bool.not_false, if_true, List.map_cons,
            Bool.false_eq_true, if_false, hrow]
          rw [ih]

lemma getFrameworkControls_length (ctrls : List Control) (framework : String)
    (incl : Bool) :
    (getFrameworkControls ctrls framework incl).length =
      (ctrls.filter fun c => truthy (fmGet c framework)).length := by
  induction ctrls with
  | nil => rfl
  | cons c rest ih =>
    simp only [getFrameworkControls] at ih ⊢
    rw [List.filterMap_cons, List.filter_cons]
    cases hsm : fmGet c framework with
    | none =>
      have : truthy (fmGet c framework) = false := by simp [hsm, truthy]
      simpa [this] using ih
    | some l =>
      cases l with
      | nil =>
        have : truthy (fmGet c framework) = false := by simp [hsm, truthy]
        simpa [this] using ih
      | cons x xs => simp [truthy, ih]

lemma isSubOf_nil (l : List Char) : isSubOf [] l = true := by
  cases l with
  | nil => rfl
  | cons c t => simp [isSubOf, List.isPrefixOf]

lemma pyLower_data_ne_nil (q : String) (hq : q ≠ "") : pyLower q.data ≠ [] := by
  intro h
  apply hq
  have hd : q.data = [] := by simpa [pyLower] using h
  cases q with
  | mk l =>
    simp only at hd
    rw [hd]

lemma mkSnippet_eq_specSnippet (q : String) (d : String) :
    mkSnippet q.data d.data = specSnippet q d := by
  unfold mkSnippet specSnippet
  cases hf : findSub (pyLower q.data) (pyLower d.data) with
  | none => simp
  | some idx =>
    simp only
    split <;> split <;> simp [List.append_assoc]

lemma searchAux_mem (q : String) (fws : Option (List String)) (limit : Int) :
    ∀ (ctrls : List Control) (acc r : List SearchHit),
      searchAux q fws limit ctrls acc = some r →
      ∀ hh ∈ r, hh ∈ acc ∨
        ∃ c ∈ ctrls, passCtrl q fws c = true ∧
          (∃ d, c.description = some d) ∧ hh = hitOf q c := by
  intro ctrls
  induction ctrls with
  | nil =>
    intro acc r h hh hmem
    rw [searchAux] at h
    cases h
    exact Or.inl hmem
  | cons c rest ih =>
    intro acc r h hh hmem
    rw [searchAux] at h
    by_cases hm : matchesText (pyLower q.data) c
    · rw [if_pos hm] at h
      by_cases hfp : fwFilterPass fws c
      · rw [if_pos hfp] at h
        cases hd : c.description with
        | none => rw [mkHit, hd] at h; cases h
        | some d =>
          have hmk : mkHit q c = some (hitOf q c) := by simp [mkHit, hd]
          rw [hmk] at h
          simp only at h
          by_cases hbr : limit ≤ (((acc ++ [hitOf q c]).length : Nat) : Int)
          · rw [if_pos hbr] at h
            cases h
            rcases List.mem_append.mp hmem with hacc | hone
            · exact Or.inl hacc
            · refine Or.inr ⟨c, by simp, by simp [passCtrl, hm, hfp], ⟨d, hd⟩, ?_⟩
              simpa using hone
          · rw [if_neg hbr] at h
            rcases ih (acc ++ [hitOf q c]) r h hh hmem with hacc | ⟨c', hc', hp', hd', he'⟩
            · rcases List.mem_append.mp hacc with h1 | h2
              · exact Or.inl h1
              · refine Or.inr ⟨c, by simp, by simp [passCtrl, hm, hfp], ⟨d, hd⟩, ?_⟩
                simpa using h2
            · exact Or.inr ⟨c', List.mem_cons_of_mem _ hc', hp', hd', he'⟩
      · rw [if_neg hfp] at h
        rcases ih acc r h hh hmem with hacc | ⟨c', hc', hp', hd', he'⟩
        · exact Or.inl hacc
        · exact Or.inr ⟨c', List.mem_cons_of_mem _ hc', hp', hd', he'⟩
    · rw [if_neg hm] at h
      rcases ih acc r h hh hmem with hacc | ⟨c', hc', hp', hd', he'⟩
      · exact Or.inl hacc
      · exact Or.inr ⟨c', List.mem_cons_of_mem _ hc', hp', hd', he'⟩

lemma effLimit_of_pos (limit : Int) (hl : 1 ≤ limit) :
    effLimit limit = limit.toNat := by
  have h1 : 1 ≤ limit.toNat := by omega
  simp [effLimit, Nat.max_eq_right h1]

lemma passCtrl_none (q : String) : passCtrl q none = matchesText (pyLower q.data) := by
  funext c
  simp [passCtrl, fwFilterPass]

/-! ### Claim theorems -/

/-- C1: for every non-empty query and every `limit ≥ 1`, an unfiltered
`search_controls` over a dataset with non-null descriptions returns
exactly the hits of the first `min limit matchCount` matching controls
in stored order, where a control matches iff the lowered query is a
substring of its lowered name or lowered description; and every control
that matches and is preceded by fewer than `limit` matching controls
appears in the result. -/
theorem search_unfiltered_first_matches
    (ctrls : List Control) (q : String) (limit : Int)
    (hq : q ≠ "") (hl : 1 ≤ limit)
    (hdesc : ∀ c ∈ ctrls, c.description ≠ none) :
    ∃ r, searchControls ctrls q none limit = some r ∧
      r = ((ctrls.filter (matchesText (pyLower q.data))).take limit.toNat).map (hitOf q) ∧
      r.length = min limit.toNat (ctrls.filter (matchesText (pyLower q.data))).length ∧
      ∀ (i : Nat) (hi : i < ctrls.length),
        matchesText (pyLower q.data) (ctrls.get ⟨i, hi⟩) = true →
        (ctrls.take i).countP (matchesText (pyLower q.data)) < limit.toNat →
        hitOf q (ctrls.get ⟨i, hi⟩) ∈ r := by
  have heq := searchControls_eq ctrls q none limit (fun c hc _ => hdesc c hc)
  rw [passCtrl_none q, effLimit_of_pos limit hl] at heq
  refine ⟨_, heq, rfl, ?_, ?_⟩
  · rw [List.length_map, List.length_take]
  · intro i hi hm hcount
    exact List.mem_map_of_mem (hitOf q)
      (mem_take_filter (matchesText (pyLower q.data)) ctrls limit.toNat i hi hm hcount)

/-- Witness for C1 at a concrete dataset, query "cyber", and limit 10. -/
theorem search_unfiltered_first_matches_witness :
    searchControls [cGov, cPol] "cyber" none 10 =
      some ((([cGov, cPol].filter (matchesText (pyLower "cyber".data))).take
        ((10 : Int)).toNat).map (hitOf "cyber")) := by
  obtain ⟨r, h1, h2, -, -⟩ :=
    search_unfiltered_first_matches [cGov, cPol] "cyber" 10
      (by decide) (by decide) (by decide)
  rw [h1, h2]

/-- C2: every hit returned by `search_controls` carries the snippet the
spec describes: the excerpt of the control's description around the
first case-insensitive occurrence of the query, from
`max 0 (mStart - 50)` to `min len (mEnd + 100)`, with ellipsis marks
exactly where text is omitted; or, when the query does not occur in the
description, its first 150 characters, marked iff it is longer. -/
theorem search_snippet_matches_spec
    (ctrls : List Control) (q : String) (fws : Option (List String))
    (limit : Int) (r : List SearchHit)
    (h : searchControls ctrls q fws limit = some r) :
    ∀ hh ∈ r, ∃ c ∈ ctrls, hh.control_id = c.id ∧
      ∃ d, c.description = some d ∧ hh.snippet = specSnippet q d := by
  intro hh hmem
  rcases searchAux_mem q fws limit ctrls [] r h hh hmem with habs | ⟨c, hc, -, ⟨d, hd⟩, he⟩
  · simp at habs
  · refine ⟨c, hc, by simp [he, hitOf], d, hd, ?_⟩
    rw [he]
    simp only [hitOf]
    rw [hd]
    simp only [Option.getD_some]
    exact mkSnippet_eq_specSnippet q d

/-- Witness for C2 at a concrete one-control dataset. -/
theorem search_snippet_matches_spec_witness :
    ∃ c ∈ [cGov], (hitOf "cyber" cGov).control_id = c.id ∧
      ∃ d, c.description = some d ∧
        (hitOf "cyber" cGov).snippet = specSnippet "cyber" d :=
  search_snippet_matches_spec [cGov] "cyber" none 10 [hitOf "cyber" cGov]
    (by decide) (hitOf "cyber" cGov) (by decide)

/-- C3 counterexample: with `limit = 0` (and with a negative limit) the
engine returns the first matching control, not the empty list — the
break `len(results) >= limit` only runs after the first append. -/
theorem search_limit_zero_counterexample :
    searchControls [cGov] "cyber" none 0 = some [hitOf "cyber" cGov] ∧
    searchControls [cGov] "cyber" none (-3) = some [hitOf "cyber" cGov] ∧
    ([hitOf "cyber" cGov] : List SearchHit) ≠ [] :=
  ⟨by decide, by decide, by decide⟩

/-- C3 amended: the engine accepts any positive limit (see the C1
theorem); for `limit = 0` or negative it does not return the empty
list, but the first matching control alone — empty only when no control
matches. -/
theorem search_nonpositive_limit_first_match
    (ctrls : List Control) (q : String) (fws : Option (List String))
    (limit : Int) (hl : limit ≤ 0)
    (hdesc : ∀ c ∈ ctrls, passCtrl q fws c = true → c.description ≠ none) :
    searchControls ctrls q fws limit =
      some (((ctrls.filter (passCtrl q fws)).take 1).map (hitOf q)) := by
  have ht : limit.toNat = 0 := by omega
  have heff : effLimit limit = 1 := by simp [effLimit, ht]
  rw [searchControls_eq ctrls q fws limit hdesc, heff]

/-- Witness for the amended C3 at limit 0. -/
theorem search_nonpositive_limit_first_match_witness :
    searchControls [cGov, cPol] "cyber" none 0 =
      some ((([cGov, cPol].filter (passCtrl "cyber" none)).take 1).map (hitOf "cyber")) :=
  search_nonpositive_limit_first_match [cGov, cPol] "cyber" none 0
    (by decide) (by decide)

/-- C4: for every framework in the registry built by
`_build_framework_metadata`, the number of rows returned by
`get_framework_controls` (with or without descriptions) equals the
registry's derived `controls_mapped` count — both count the controls
whose mapping entry for the key is non-null/non-empty — and every
registered framework has a positive count. -/
theorem framework_registry_counts
    (names : List (String × String)) (ctrls : List Control) (incl : Bool)
    (f : Framework) (hf : f ∈ buildFrameworks names ctrls) :
    (getFrameworkControls ctrls f.key incl).length = f.controls_mapped ∧
    0 < f.controls_mapped := by
  simp only [buildFrameworks, List.mem_filterMap] at hf
  obtain ⟨kn, hmem, heq⟩ := hf
  by_cases hc : 0 < (ctrls.filter fun c => truthy (fmGet c kn.1)).length
  · rw [if_pos hc] at heq
    injection heq with heq
    subst heq
    exact ⟨getFrameworkControls_length ctrls kn.1 incl, hc⟩
  · rw [if_neg hc] at heq
    cases heq

/-- Witness for C4: the registry over a two-control dataset registers
"iso_27001_2022" with count 2, matching the row count. -/
theorem framework_registry_counts_witness :
    (getFrameworkControls [cGov, cPol]
        (Framework.mk "iso_27001_2022" "ISO/IEC 27001:2022" 2).key true).length =
      (Framework.mk "iso_27001_2022" "ISO/IEC 27001:2022" 2).controls_mapped ∧
    0 < (Framework.mk "iso_27001_2022" "ISO/IEC 27001:2022" 2).controls_mapped :=
  framework_registry_counts [("iso_27001_2022", "ISO/IEC 27001:2022")]
    [cGov, cPol] true (Framework.mk "iso_27001_2022" "ISO/IEC 27001:2022" 2)
    (by decide)

/-- C5 counterexample: `source_control = ""` is supplied but falsy, so
the code skips the membership filter entirely: it returns a Mapping
whose `source_controls` does not contain `""`, contradicting the claim
that every returned Mapping's source list contains the supplied id. -/
theorem map_frameworks_empty_filter_counterexample :
    mapFrameworks [cPol] "iso_27001_2022" "dora" (some "") =
      [Mapping.mk "GOV-02" (some "Policies") ["5.2", "5.1"] [] 8] ∧
    (["5.2", "5.1"] : List String).contains "" = false :=
  ⟨by decide, by decide⟩

/-- C5 amended: for a null filter, or a supplied NON-EMPTY
`source_control_id` (an empty string is falsy in Python and disables
the filter), `map_frameworks` returns, in stored order, one Mapping per
control with a non-null/non-empty source mapping (containing the filter
id when one is given), carrying that list as `source_controls`, the
target entry or `[]` as `target_controls`, and the control's id, name
and weight; in particular a control with a null target mapping appears
with `target_controls = []`. -/
theorem map_frameworks_characterization
    (ctrls : List Control) (src tgt : String) (filt : Option String)
    (hfilt : ∀ s, filt = some s → s ≠ "") :
    mapFrameworks ctrls src tgt filt =
      (ctrls.filter (specKeep src filt)).map (rowOf src tgt) ∧
    ∀ c ∈ ctrls, truthy (fmGet c src) = true → fmGet c tgt = none →
      specKeep src filt c = true →
      Mapping.mk c.id c.name ((fmGet c src).getD []) [] c.weight ∈
        mapFrameworks ctrls src tgt filt := by
  have hpred : ∀ c : Control, keepMapping src filt c = specKeep src filt c := by
    intro c
    cases filt with
    | none => rfl
    | some s =>
      have hs : (s == "") = false := by
        have := hfilt s rfl
        simpa using this
      simp [keepMapping, specKeep, hs]
  have hmain : mapFrameworks ctrls src tgt filt =
      (ctrls.filter (specKeep src filt)).map (rowOf src tgt) := by
    rw [mapFrameworks_eq]
    congr 1
    exact List.filter_congr fun c _ => hpred c
  refine ⟨hmain, ?_⟩
  intro c hc htr htgt hflt
  rw [hmain]
  have hrow : rowOf src tgt c =
      Mapping.mk c.id c.name ((fmGet c src).getD []) [] c.weight := by
    simp [rowOf, htgt]
  rw [← hrow]
  exact List.mem_map_of_mem _ (List.mem_filter.mpr ⟨hc, hflt⟩)

/-- Witness for the amended C5: over one control mapped to the source
framework but with a null "dora" entry, the characterization applies
and puts the Mapping with empty `target_controls` in the result. -/
theorem map_frameworks_characterization_witness :
    Mapping.mk cGov.id cGov.name ((fmGet cGov "iso_27001_2022").getD []) [] cGov.weight ∈
      mapFrameworks [cGov] "iso_27001_2022" "dora" none :=
  (map_frameworks_characterization [cGov] "iso_27001_2022" "dora" none
      (fun s hs => by cases hs)).2
    cGov (by decide) (by decide) (by decide) (by decide)

/-- C6: every Mapping returned by `map_frameworks` has a non-empty
`source_controls` list, and filtering by a `source_control` id never
returns more Mappings than the unfiltered call. -/
theorem map_frameworks_subset_relation
    (ctrls : List Control) (src tgt : String) (filt : Option String) :
    (∀ m ∈ mapFrameworks ctrls src tgt filt, m.source_controls ≠ []) ∧
    (∀ i : String,
      (mapFrameworks ctrls src tgt (some i)).length ≤
        (mapFrameworks ctrls src tgt none).length) := by
  constructor
  · intro m hm
    rw [mapFrameworks_eq] at hm
    obtain ⟨c, hc, rfl⟩ := List.mem_map.mp hm
    have hkeep := (List.mem_filter.mp hc).2
    have htr : truthy (fmGet c src) = true :=
      (Bool.and_eq_true _ _ |>.mp (by simpa [keepMapping] using hkeep)).1
    cases hg : fmGet c src with
    | none => rw [hg] at htr; simp [truthy] at htr
    | some l =>
      cases l with
      | nil => rw [hg] at htr; simp [truthy] at htr
      | cons x xs => simp [rowOf, hg]
  · intro i
    rw [mapFrameworks_eq, mapFrameworks_eq, List.length_map, List.length_map]
    apply length_filter_mono
    intro c hc
    have h' := hc
    simp only [keepMapping, Bool.and_eq_true] at h'
    simp [keepMapping, h'.1]

/-- Witness for C6 at a concrete mapping result. -/
theorem map_frameworks_subset_relation_witness :
    (rowOf "iso_27001_2022" "dora" cGov).source_controls ≠ [] :=
  (map_frameworks_subset_relation [cGov] "iso_27001_2022" "dora" none).1
    (rowOf "iso_27001_2022" "dora" cGov) (by decide)

/-- C7: the framework filter only narrows: over a dataset with non-null
descriptions, the filtered search never returns more hits than the
unfiltered one, and every hit of the filtered call comes from a control
with a non-null/non-empty mapping for at least one supplied key. -/
theorem search_framework_filter_narrows
    (ctrls : List Control) (q : String) (limit : Int) (l : List String)
    (hne : l ≠ [])
    (hdesc : ∀ c ∈ ctrls, c.description ≠ none) :
    ∃ rf ru, searchControls ctrls q (some l) limit = some rf ∧
      searchControls ctrls q none limit = some ru ∧
      rf.length ≤ ru.length ∧
      ∀ hh ∈ rf, ∃ c ∈ ctrls, hh.control_id = c.id ∧
        l.any (fun fw => truthy (fmGet c fw)) = true := by
  have h1 := searchControls_eq ctrls q (some l) limit (fun c hc _ => hdesc c hc)
  have h2 := searchControls_eq ctrls q none limit (fun c hc _ => hdesc c hc)
  refine ⟨_, _, h1, h2, ?_, ?_⟩
  · rw [List.length_map, List.length_map, List.length_take, List.length_take]
    have hmono := length_filter_mono ctrls (passCtrl q (some l)) (passCtrl q none)
      (fun c hc => by
        have h' := hc
        simp only [passCtrl, Bool.and_eq_true] at h'
        simp [passCtrl, fwFilterPass, h'.1])
    exact min_le_min le_rfl hmono
  · intro hh hhmem
    obtain ⟨c, hcmem, rfl⟩ := List.mem_map.mp hhmem
    have hcf : c ∈ ctrls.filter (passCtrl q (some l)) := List.mem_of_mem_take hcmem
    have hpass := (List.mem_filter.mp hcf).2
    have hcc : c ∈ ctrls := (List.mem_filter.mp hcf).1
    refine ⟨c, hcc, rfl, ?_⟩
    have hfw : fwFilterPass (some l) c = true := by
      simp only [passCtrl, Bool.and_eq_true] at hpass
      exact hpass.2
    cases l with
    | nil => exact absurd rfl hne
    | cons x xs => simpa [fwFilterPass] using hfw

/-- Witness for C7 with one supplied framework key. -/
theorem search_framework_filter_narrows_witness :
    ∃ rf ru, searchControls [cGov, cPol] "policies" (some ["iso_27001_2022"]) 10 = some rf ∧
      searchControls [cGov, cPol] "policies" none 10 = some ru ∧
      rf.length ≤ ru.length ∧
      ∀ hh ∈ rf, ∃ c ∈ [cGov, cPol], hh.control_id = c.id ∧
        (["iso_27001_2022"] : List String).any (fun fw => truthy (fmGet c fw)) = true :=
  search_framework_filter_narrows [cGov, cPol] "policies" 10 ["iso_27001_2022"]
    (by decide) (by decide)

/-- C8: over a dataset with unique ids (the data-model invariant),
`get_control` returns exactly the stored control for each stored id,
and the distinguished `none` outcome — not an exception — for every id
that no loaded control carries. -/
theorem get_control_lookup
    (ctrls : List Control) (hnodup : (ctrls.map Control.id).Nodup) :
    (∀ c ∈ ctrls, getControl ctrls c.id = some c) ∧
    (∀ i : String, (∀ c ∈ ctrls, c.id ≠ i) → getControl ctrls i = none) := by
  constructor
  · intro c hc
    unfold getControl
    cases hfind : ctrls.reverse.find? (fun c' => c'.id == c.id) with
    | none =>
      have h := List.find?_eq_none.mp hfind c (List.mem_reverse.mpr hc)
      simp at h
    | some d =>
      have hd := List.find?_some hfind
      have hdm : d ∈ ctrls := List.mem_reverse.mp (List.mem_of_find?_eq_some hfind)
      have hid : d.id = c.id := by simpa using hd
      have hdc : d = c := List.inj_on_of_nodup_map hnodup hdm hc hid
      rw [hdc]
  · intro i hi
    unfold getControl
    apply List.find?_eq_none.mpr
    intro a ha
    simpa using hi a (List.mem_reverse.mp ha)

/-- Witness for C8: lookup of a stored id and of a missing id. -/
theorem get_control_lookup_witness :
    getControl [cGov, cPol] cPol.id = some cPol ∧
    getControl [cGov, cPol] "nonexistent-id" = none :=
  ⟨(get_control_lookup [cGov, cPol] (by decide)).1 cPol (by decide),
   (get_control_lookup [cGov, cPol] (by decide)).2 "nonexistent-id" (by decide)⟩

/-- C9: the match test treats a null name/description as the empty
string, so a fully-null-field control never matches a non-empty query;
the whole search is error-free whenever every control whose name
matches the query has a non-null description; and without that
precondition the snippet code's unguarded `description.lower()` does
reach the error state (a concrete crashing run is included). -/
theorem search_null_description_guard
    (ctrls : List Control) (q : String) (fws : Option (List String))
    (limit : Int) :
    (∀ c : Control, q ≠ "" → c.name = none → c.description = none →
      matchesText (pyLower q.data) c = false) ∧
    ((∀ c ∈ ctrls, isSubOf (pyLower q.data) (lowerOptField c.name) = true →
        c.description ≠ none) →
      (searchControls ctrls q fws limit).isSome = true) ∧
    searchControls [cNull] "alpha" none 10 = none := by
  refine ⟨?_, ?_, by decide⟩
  · intro c hq hn hd
    have hqd := pyLower_data_ne_nil q hq
    simp [matchesText, hn, hd, lowerOptField, isSubOf, List.isEmpty_iff, hqd]
  · intro hpre
    have hdesc : ∀ c ∈ ctrls, passCtrl q fws c = true → c.description ≠ none := by
      intro c hc hp
      intro hdn
      have hm : matchesText (pyLower q.data) c = true := by
        simp only [passCtrl, Bool.and_eq_true] at hp
        exact hp.1
      simp only [matchesText, Bool.or_eq_true] at hm
      rcases hm with hname | hdescm
      · exact hpre c hc hname hdn
      · rw [hdn] at hdescm
        have hnil : pyLower q.data = [] := by
          simpa [lowerOptField, isSubOf, List.isEmpty_iff] using hdescm
        exact hpre c hc (by rw [hnil]; exact isSubOf_nil _) hdn
    rw [searchControls_eq ctrls q fws limit hdesc]
    rfl

/-- Witness for C9's totality part at a concrete dataset. -/
theorem search_null_description_guard_witness :
    (searchControls [cGov] "cyber" none 10).isSome = true :=
  (search_null_description_guard [cGov] "cyber" none 10).2.1 (by decide)

/-- C10: the empty query matches every control whose name is non-null
(the empty string is a substring of every string), so over a dataset
with non-null descriptions `search_controls("", None, limit)` with
`limit ≥ 1` returns the first `limit` controls in stored order instead
of rejecting the empty query. -/
theorem search_empty_query_returns_first_controls
    (ctrls : List Control) (limit : Int) (hl : 1 ≤ limit)
    (hdesc : ∀ c ∈ ctrls, c.description ≠ none) :
    (∀ c : Control, c.name ≠ none → matchesText (pyLower "".data) c = true) ∧
    searchControls ctrls "" none limit =
      some ((ctrls.take limit.toNat).map (hitOf "")) := by
  have hall : ∀ c : Control, matchesText (pyLower "".data) c = true := by
    intro c
    have hq : pyLower "".data = [] := rfl
    rw [matchesText, hq, isSubOf_nil, isSubOf_nil]
    rfl
  refine ⟨fun c _ => hall c, ?_⟩
  rw [searchControls_eq ctrls "" none limit (fun c hc _ => hdesc c hc)]
  have hfilter : ctrls.filter (passCtrl "" none) = ctrls := by
    apply List.filter_eq_self.mpr
    intro c _
    simp [passCtrl, fwFilterPass, hall c]
  rw [hfilter, effLimit_of_pos limit hl]

/-- Witness for C10 at a two-control dataset and limit 1. -/
theorem search_empty_query_returns_first_controls_witness :
    searchControls [cGov, cPol] "" none 1 =
      some (([cGov, cPol].take ((1 : Int)).toNat).map (hitOf "")) :=
  (search_empty_query_returns_first_controls [cGov, cPol] 1 (by decide) (by decide)).2
